import Mathlib

/-!
Verification of `MC/bin/o2dpg_determine_eventstat.py`.

The script counts simulated MC collisions in two ways (from the AO2D file and
from GEANT kinematics files found by a recursive directory scan), warns when
the two disagree, and writes a MonaLisa accounting file named after the AO2D
count.  We embed the script shallowly: ROOT files become explicit inert data
(lists of named keys/tables with entry counts), Python's `re.match` becomes a
verified derivative-based matcher over a small regular-expression type, and
the fallible top level (opening the AO2D file) returns `Except`.
-/

/-- Regular expressions over `Char`, as used by the Python `re` module in the
script: literal characters, the any-character class `.` (which in Python does
not match a newline), concatenation, alternation and Kleene star. -/
inductive RE where
  | zero
  | eps
  | ch (c : Char)
  | any
  | cat (p q : RE)
  | alt (p q : RE)
  | star (p : RE)
deriving DecidableEq

/-- Does the expression accept the empty string? -/
def RE.nullable : RE → Bool
  | .zero => false
  | .eps => true
  | .ch _ => false
  | .any => false
  | .cat p q => p.nullable && q.nullable
  | .alt p q => p.nullable || q.nullable
  | .star _ => true

/-- Brzozowski derivative of an expression by one character. -/
def RE.deriv : RE → Char → RE
  | .zero, _ => .zero
  | .eps, _ => .zero
  | .ch c, a => if c = a then .eps else .zero
  | .any, a => if a = '\n' then .zero else .eps
  | .cat p q, a =>
      if p.nullable then .alt (.cat (p.deriv a) q) (q.deriv a)
      else .cat (p.deriv a) q
  | .alt p q, a => .alt (p.deriv a) (q.deriv a)
  | .star p, a => .cat (p.deriv a) (.star p)

/-- Full matching: does the expression match the whole string?  Models
`re.match` for a pattern anchored on both sides with `^` and `$`. -/
def RE.rmatch : RE → List Char → Bool
  | p, [] => p.nullable
  | p, a :: as => (p.deriv a).rmatch as

/-- Matching of some (possibly empty) leading segment of the string.  Models
Python's `re.match`, which anchors at the start of the string only. -/
def RE.rmatchStart : RE → List Char → Bool
  | p, [] => p.nullable
  | p, a :: as => p.nullable || (p.deriv a).rmatchStart as

/-- The language of an expression, as an inductive predicate. -/
inductive RE.Matches : RE → List Char → Prop where
  | eps : RE.Matches .eps []
  | ch (c : Char) : RE.Matches (.ch c) [c]
  | any (c : Char) : c ≠ '\n' → RE.Matches .any [c]
  | cat {p q : RE} {u v : List Char} :
      RE.Matches p u → RE.Matches q v → RE.Matches (.cat p q) (u ++ v)
  | altL {p q : RE} {u : List Char} : RE.Matches p u → RE.Matches (.alt p q) u
  | altR {p q : RE} {u : List Char} : RE.Matches q u → RE.Matches (.alt p q) u
  | starNil (p : RE) : RE.Matches (.star p) []
  | starCons {p : RE} {u v : List Char} :
      RE.Matches p u → RE.Matches (.star p) v → RE.Matches (.star p) (u ++ v)

/-- The regular expression matching one literal string. -/
def reStrL (cs : List Char) : RE :=
  cs.foldr (fun c r => RE.cat (RE.ch c) r) RE.eps

/-- The regular expression matching any one character from a list (a character
class such as `[0-9]`). -/
def reChars (cs : List Char) : RE :=
  cs.foldr (fun c r => RE.alt (RE.ch c) r) RE.zero

/-- The ten ASCII digits: the character class `[0-9]`. -/
def digitChars : List Char :=
  ['0', '1', '2', '3', '4', '5', '6', '7', '8', '9']

/-- The character class `[0-9]` as a regular expression. -/
def reDigit : RE := reChars digitChars

/-- The pattern `"^O2mccollision(_[0-9]*)?$"` used on table names in
`read_AO2D_eventcount` (line 109 of the script). -/
def collisionRE : RE :=
  RE.cat (reStrL "O2mccollision".toList)
    (RE.alt RE.eps (RE.cat (RE.ch '_') (RE.star reDigit)))

/-- The call `re.match("^O2mccollision(_[0-9]*)?$", tabname)`: the pattern is anchored
on both sides, so this is a full match of the table name. -/
def collisionTableMatch (tabname : String) : Bool :=
  collisionRE.rmatch tabname.toList

/-- The pattern `r'sgn.*_Kine.root'` (`pattern_to_match` in
`read_accumulated_GEANT_eventcount`, line 75).  The `.` before `root` is not
escaped in the script, so it is the any-character class. -/
def kineRE : RE :=
  RE.cat (reStrL "sgn".toList)
    (RE.cat (RE.star RE.any)
      (RE.cat (reStrL "_Kine".toList) (RE.cat RE.any (reStrL "root".toList))))

/-- The call `re.match(pattern, file_name)` as used in `find_files_matching_pattern`:
anchored at the start of the name only. -/
def reMatchName (pattern : RE) (file_name : String) : Bool :=
  pattern.rmatchStart file_name.toList

/-- Python `s.startswith(pre)`: prefix test on the character data (Python's
`str.startswith`). -/
def strStartsWith (s pre : String) : Bool :=
  pre.data.isPrefixOf s.data

/-- A table key inside a `DF_` group of the AO2D file: its name, whether
reading it yields a live `ROOT.TTree` (the script's test
`coltree and isinstance(coltree, ROOT.TTree)`), and its `GetEntries()`. -/
structure TabObj where
  name : String
  isTree : Bool
  entries : Nat
deriving DecidableEq

/-- A top-level key of the AO2D file together with the table keys listed by
`GetListOfKeys()` of the object it reads. -/
structure DFKey where
  name : String
  tables : List TabObj
deriving DecidableEq

/-- An opened AO2D file: its top-level keys, in `GetListOfKeys()` order. -/
structure AO2DFile where
  keys : List DFKey
deriving DecidableEq

/-- The call `obj.GetKey(tabname)`: the first key of the object carrying this name. -/
def getKey (tables : List TabObj) (tabname : String) : Option TabObj :=
  tables.find? (fun t => t.name == tabname)

/-- One iteration of the inner loop of `read_AO2D_eventcount` (lines
105–114): on a name match, re-fetch the table by name with `GetKey`, and if
it is a live tree add its entries and bump `colfound`.  (`GetKey` cannot
miss here because the name comes from the same key list.) -/
def collisionStep (tables : List TabObj) (acc : Nat × Nat) (tab : TabObj) :
    Nat × Nat :=
  if collisionTableMatch tab.name then
    match getKey tables tab.name with
    | some coltree =>
        if coltree.isTree then (acc.1 + coltree.entries, acc.2 + 1) else acc
    | none => acc
  else acc

/-- Function `read_AO2D_eventcount` (lines 82–121), as the pair
`(eventcount, colfound)`: the script returns the first component and prints
the "No MC collision table found" diagnostic iff the second is zero. -/
def read_AO2D_eventcount (file : AO2DFile) : Nat × Nat :=
  file.keys.foldl
    (fun acc key =>
      if strStartsWith key.name "DF_" then
        key.tables.foldl (collisionStep key.tables) acc
      else acc)
    (0, 0)

/-- The object returned by `tfile.Get("o2sim")` in a kinematics file: whether
it is a live `ROOT.TTree`, and its `GetEntries()`. -/
structure SimObj where
  isTree : Bool
  entries : Nat
deriving DecidableEq

/-- An opened kinematics ROOT file: its named objects; `Get` looks one up. -/
structure KineTFile where
  objects : List (String × SimObj)
deriving DecidableEq

/-- The call `tfile.Get(name)`: `None` when no object of this name exists. -/
def KineTFile.get (tfile : KineTFile) (name : String) : Option SimObj :=
  (tfile.objects.find? (fun o => o.1 == name)).map (fun o => o.2)

/-- Function `read_GEANT_eventcount` (lines 58–68).  `ROOT.TFile.Open` yielding no
usable file is the `none` case; then, and when `o2sim` is absent or not a
tree, the initial `eventcount = 0` is returned. -/
def read_GEANT_eventcount (file : Option KineTFile) : Nat :=
  match file with
  | none => 0
  | some tfile =>
      match tfile.get "o2sim" with
      | some simtree => if simtree.isTree then simtree.entries else 0
      | none => 0

mutual
/-- A directory: its files (base name and the content an open would yield)
and its subdirectories, in `os.walk` order. -/
inductive DirTree where
  | node (files : List (String × Option KineTFile)) (subdirs : DirForest)
/-- A list of named subdirectories. -/
inductive DirForest where
  | nil
  | cons (name : String) (tree : DirTree) (rest : DirForest)
end

/-- One file produced by the scanner: the joined path
`os.path.join(root, file_name)`, the base name the pattern was tested
against, and the content an open of the path would yield. -/
structure FoundFile where
  path : String
  base : String
  content : Option KineTFile
deriving DecidableEq

mutual
/-- The `os.walk` loop of `find_files_matching_pattern` (lines 50–54): the
current directory's matching files, then the subdirectories recursively. -/
def walkDir (pattern : RE) (root : String) : DirTree → List FoundFile
  | .node files subdirs =>
      files.foldr
        (fun fc acc =>
          if reMatchName pattern fc.1 then
            ⟨root ++ "/" ++ fc.1, fc.1, fc.2⟩ :: acc
          else acc) []
      ++ walkForest pattern root subdirs
/-- Recursive descent into the subdirectories. -/
def walkForest (pattern : RE) (root : String) : DirForest → List FoundFile
  | .nil => []
  | .cons d t rest =>
      walkDir pattern (root ++ "/" ++ d) t ++ walkForest pattern root rest
end

/-- Function `find_files_matching_pattern(directory, pattern)` (lines 46–56).
`os.walk` over a missing or unreadable directory yields nothing: the `none`
case. -/
def find_files_matching_pattern (directory : Option DirTree) (pattern : RE) :
    List FoundFile :=
  match directory with
  | none => []
  | some t => walkDir pattern "." t

/-- Function `read_accumulated_GEANT_eventcount` (lines 70–80): find the kinematics
files with the pattern `r'sgn.*_Kine.root'` and sum their event counts. -/
def read_accumulated_GEANT_eventcount (directory : Option DirTree) : Nat :=
  (find_files_matching_pattern directory kineRE).foldl
    (fun eventcount f => eventcount + read_GEANT_eventcount f.content) 0

/-- The stat file produced by `write_stat_file`: its name and its lines. -/
structure StatFile where
  filename : String
  lines : List String
deriving DecidableEq

/-- Function `write_stat_file` (lines 28–38). -/
def write_stat_file (eventcount : Nat) : StatFile :=
  ⟨"0_0_0_" ++ toString eventcount ++ ".stat",
   ["#This file is autogenerated",
    "#It tells MonaLisa about the number of produced MC events",
    "#Numer of MC collisions in AOD : " ++ toString eventcount]⟩

/-- The effect of `write_stat_file` on a directory of text files, path to
lines: `open(filename, 'w')` creates or truncates, so after the call the
path holds exactly the three lines, whatever it held before. -/
def applyStatWrite (eventcount : Nat) (fs : String → Option (List String)) :
    String → Option (List String) :=
  fun path =>
    if path = (write_stat_file eventcount).filename
    then some (write_stat_file eventcount).lines
    else fs path

/-- The module top level (lines 123–129).  When `ROOT.TFile.Open` yields no
usable file for the AO2D path, `tfile.GetListOfKeys()` raises on `None`, an
unhandled crash before any stat file is written: the `Except.error` case.
Otherwise the script warns iff the two counts differ and writes the stat
file from the AO2D count. -/
def script_main (aod_file : Option AO2DFile) (cwd : Option DirTree) :
    Except Unit (Bool × StatFile) :=
  match aod_file with
  | none => .error ()
  | some f =>
      let ao2dCount := (read_AO2D_eventcount f).1
      let geantCount := read_accumulated_GEANT_eventcount cwd
      .ok (ao2dCount != geantCount, write_stat_file ao2dCount)

/-- The collision tables of a group, as the specification describes them:
member keys whose name matches the versioned pattern and which read as live
trees. -/
def collisionTables (key : DFKey) : List TabObj :=
  key.tables.filter (fun t => collisionTableMatch t.name && t.isTree)

/-- Total entries over the collision tables of one group. -/
def groupCollisionSum (key : DFKey) : Nat :=
  ((collisionTables key).map (fun t => t.entries)).sum

/-- The `DF_`-prefixed top-level keys of the file. -/
def dfKeys (file : AO2DFile) : List DFKey :=
  file.keys.filter (fun k => strStartsWith k.name "DF_")

/-- Sum of entry counts over every collision table of every `DF_` group. -/
def dfCollisionSum (file : AO2DFile) : Nat :=
  ((dfKeys file).map groupCollisionSum).sum

/-- Number of collision tables over all `DF_` groups. -/
def dfCollisionCount (file : AO2DFile) : Nat :=
  ((dfKeys file).map (fun k => (collisionTables k).length)).sum

/-- Well-formedness of an AO2D file: within each top-level object the table
names are distinct, so that `GetKey(name)` returns the very key whose name
is being tested (a ROOT directory with a single cycle per key). -/
def tableNamesNodup (file : AO2DFile) : Prop :=
  ∀ key ∈ file.keys, (key.tables.map TabObj.name).Nodup

instance : DecidablePred tableNamesNodup := by
  intro file
  unfold tableNamesNodup
  infer_instance

mutual
/-- Every file under a directory (with joined path), in walk order. -/
def allFilesDir (root : String) : DirTree → List FoundFile
  | .node files subdirs =>
      files.map (fun fc => ⟨root ++ "/" ++ fc.1, fc.1, fc.2⟩)
      ++ allFilesForest root subdirs
/-- Every file under each subdirectory. -/
def allFilesForest (root : String) : DirForest → List FoundFile
  | .nil => []
  | .cons d t rest =>
      allFilesDir (root ++ "/" ++ d) t ++ allFilesForest root rest
end

/-- The pattern `O2mccollision(_[0-9]+)?` asserted by the specification for
the collision-table matcher (one or MORE digits after the underscore),
stated over a whole member name, for comparison with the code's
`^O2mccollision(_[0-9]*)?$`. -/
def collisionClaimRE : RE :=
  RE.cat (reStrL "O2mccollision".toList)
    (RE.alt RE.eps (RE.cat (RE.ch '_') (RE.cat reDigit (RE.star reDigit))))

/-- Whole-name match against the specification's collision pattern. -/
def collisionClaimMatch (tabname : String) : Bool :=
  collisionClaimRE.rmatch tabname.toList

/-- The pattern `sgn.*_Kine\.root` asserted by the specification for the
kinematics scan (the character before `root` a LITERAL dot), for comparison
with the code's `sgn.*_Kine.root`. -/
def kineClaimRE : RE :=
  RE.cat (reStrL "sgn".toList)
    (RE.cat (RE.star RE.any) (reStrL "_Kine.root".toList))

/-- Start-anchored match against the specification's kinematics pattern. -/
def kineClaimMatch (file_name : String) : Bool :=
  kineClaimRE.rmatchStart file_name.toList

/-- Example AO2D file: two `DF_` groups whose `O2mccollision` tables hold 5
and 7 rows, plus a non-`DF_` key whose table must contribute nothing. -/
def exTwoGroups : AO2DFile :=
  ⟨[⟨"DF_0", [⟨"O2mccollision", true, 5⟩]⟩,
    ⟨"DF_1", [⟨"O2mccollision", true, 7⟩]⟩,
    ⟨"metaData", [⟨"O2mccollision", true, 100⟩]⟩]⟩

/-- Example AO2D file whose only collision table is named `O2mccollision_`
(underscore, zero digits). -/
def cexUnderscoreFile : AO2DFile :=
  ⟨[⟨"DF_0", [⟨"O2mccollision_", true, 4⟩]⟩]⟩

/-- Example AO2D file with no `DF_`-prefixed top-level key. -/
def exNoDFFile : AO2DFile :=
  ⟨[⟨"metaData", [⟨"O2mccollision", true, 9⟩]⟩]⟩

/-- Example AO2D file counting 48 collisions. -/
def exAod48 : AO2DFile :=
  ⟨[⟨"DF_2", [⟨"O2mccollision", true, 48⟩]⟩]⟩

/-- Example working directory holding one kinematics file of 50 events. -/
def exKineDir50 : DirTree :=
  .node [("sgn_1_Kine.root", some ⟨[("o2sim", ⟨true, 50⟩)]⟩)] .nil

/-- Example directory holding a file named `sgn_KineXroot`. -/
def cexKineDirX : DirTree :=
  .node [("sgn_KineXroot", none)] .nil

/-- Example directory whose only file does not look like a kinematics
file. -/
def exNoKineDir : DirTree :=
  .node [("AO2D.root", none)] .nil

/-- Example kinematics file with a healthy `o2sim` tree of 21 entries. -/
def exKineFile : KineTFile := ⟨[("o2sim", ⟨true, 21⟩)]⟩

/-- Example kinematics file whose `o2sim` object is not a tree. -/
def exKineNoTree : KineTFile := ⟨[("o2sim", ⟨false, 21⟩)]⟩

/-- Example kinematics file with no `o2sim` object at all. -/
def exKineMissing : KineTFile := ⟨[("other", ⟨true, 3⟩)]⟩

/-- Example AO2D file with one `DF_` group holding the two collision tables
`O2mccollision` and `O2mccollision_1`. -/
def exTwinTables (a b : Nat) : AO2DFile :=
  ⟨[⟨"DF_0", [⟨"O2mccollision", true, a⟩, ⟨"O2mccollision_1", true, b⟩]⟩]⟩

theorem RE.matches_zero_iff (u : List Char) : RE.Matches .zero u ↔ False := by
  constructor
  · intro h; cases h
  · intro h; exact h.elim

theorem RE.matches_eps_iff (u : List Char) : RE.Matches .eps u ↔ u = [] := by
  constructor
  · intro h; cases h; rfl
  · rintro rfl; exact .eps

theorem RE.matches_ch_iff (c : Char) (u : List Char) :
    RE.Matches (.ch c) u ↔ u = [c] := by
  constructor
  · intro h; cases h; rfl
  · rintro rfl; exact .ch c

theorem RE.matches_any_iff (u : List Char) :
    RE.Matches .any u ↔ ∃ c, c ≠ '\n' ∧ u = [c] := by
  constructor
  · intro h; cases h with | any c hc => exact ⟨c, hc, rfl⟩
  · rintro ⟨c, hc, rfl⟩; exact .any c hc

theorem RE.matches_cat_iff (p q : RE) (u : List Char) :
    RE.Matches (.cat p q) u ↔
      ∃ s t, u = s ++ t ∧ RE.Matches p s ∧ RE.Matches q t := by
  constructor
  · intro h; cases h with | cat hs ht => exact ⟨_, _, rfl, hs, ht⟩
  · rintro ⟨s, t, rfl, hs, ht⟩; exact .cat hs ht

theorem RE.matches_alt_iff (p q : RE) (u : List Char) :
    RE.Matches (.alt p q) u ↔ RE.Matches p u ∨ RE.Matches q u := by
  constructor
  · intro h
    cases h with
    | altL h => exact Or.inl h
    | altR h => exact Or.inr h
  · rintro (h | h)
    · exact .altL h
    · exact .altR h

theorem RE.matches_star_iff (p : RE) (x : List Char) :
    RE.Matches (.star p) x ↔
      x = [] ∨ ∃ u v, u ≠ [] ∧ x = u ++ v ∧
        RE.Matches p u ∧ RE.Matches (.star p) v := by
  constructor
  · intro h
    generalize hr : RE.star p = r at h
    induction h with
    | eps => exact absurd hr (by simp)
    | ch c => exact absurd hr (by simp)
    | any c hc => exact absurd hr (by simp)
    | cat hu hv ihu ihv => exact absurd hr (by simp)
    | altL h ih => exact absurd hr (by simp)
    | altR h ih => exact absurd hr (by simp)
    | starNil q => exact Or.inl rfl
    | starCons hu hv ihu ihv =>
        cases hr
        rename_i u v
        rcases ihv rfl with h0 | ⟨s, t, hs0, hst, hms, hmt⟩
        · subst h0
          rcases Decidable.em (u = []) with h0 | h0
          · exact Or.inl (by simp [h0])
          · exact Or.inr ⟨u, [], h0, rfl, hu, .starNil p⟩
        · rcases Decidable.em (u = []) with h0 | h0
          · subst h0
            exact Or.inr ⟨s, t, hs0, by simpa using hst, hms, hmt⟩
          · exact Or.inr ⟨u, v, h0, rfl, hu, hv⟩
  · rintro (rfl | ⟨u, v, _, rfl, hu, hv⟩)
    · exact .starNil p
    · exact .starCons hu hv

theorem RE.nullable_iff (p : RE) : p.nullable = true ↔ p.Matches [] := by
  induction p with
  | zero => simp [nullable, matches_zero_iff]
  | eps => simp [nullable, matches_eps_iff]
  | ch c => simp [nullable, matches_ch_iff]
  | any => simp [nullable, matches_any_iff]
  | cat p q ihp ihq =>
      simp only [nullable, Bool.and_eq_true, ihp, ihq, matches_cat_iff]
      constructor
      · rintro ⟨hp, hq⟩; exact ⟨[], [], rfl, hp, hq⟩
      · rintro ⟨s, t, hst, hs, ht⟩
        rcases List.append_eq_nil.mp hst.symm with ⟨rfl, rfl⟩
        exact ⟨hs, ht⟩
  | alt p q ihp ihq =>
      simp [nullable, matches_alt_iff, ihp, ihq]
  | star p ih =>
      simp only [nullable, true_iff]
      exact .starNil p

theorem RE.deriv_matches_iff (p : RE) (a : Char) (w : List Char) :
    (p.deriv a).Matches w ↔ p.Matches (a :: w) := by
  induction p generalizing w with
  | zero => simp [deriv, matches_zero_iff]
  | eps => simp [deriv, matches_zero_iff, matches_eps_iff]
  | ch c =>
      by_cases hca : c = a
      · subst hca
        simp [deriv, matches_eps_iff, matches_ch_iff]
      · simp only [deriv, if_neg hca, matches_zero_iff, matches_ch_iff, false_iff]
        intro h
        exact hca (List.head_eq_of_cons_eq h).symm
  | any =>
      by_cases hnl : a = '\n'
      · subst hnl
        have hd : RE.deriv RE.any '\n' = RE.zero := by simp [deriv]
        rw [hd]
        simp only [matches_zero_iff, matches_any_iff, false_iff]
        rintro ⟨c, hc, h⟩
        exact hc (List.head_eq_of_cons_eq h).symm
      · simp only [deriv, if_neg hnl, matches_eps_iff, matches_any_iff]
        constructor
        · rintro rfl; exact ⟨a, hnl, rfl⟩
        · rintro ⟨c, hc, h⟩
          exact List.tail_eq_of_cons_eq h
  | cat p q ihp ihq =>
      by_cases hn : p.nullable = true
      · simp only [deriv, if_pos hn, matches_alt_iff, matches_cat_iff, ihp, ihq]
        constructor
        · rintro (⟨s, t, rfl, hs, ht⟩ | hq0)
          · exact ⟨a :: s, t, rfl, hs, ht⟩
          · exact ⟨[], a :: w, rfl, (nullable_iff p).mp hn, hq0⟩
        · rintro ⟨s, t, hst, hs, ht⟩
          cases s with
          | nil =>
              right
              have ht' : t = a :: w := by simpa using hst.symm
              rw [ht'] at ht
              exact ht
          | cons b s =>
              left
              rcases List.cons_eq_cons.mp hst with ⟨rfl, rfl⟩
              exact ⟨s, t, rfl, hs, ht⟩
      · simp only [deriv, if_neg hn, matches_cat_iff, ihp]
        constructor
        · rintro ⟨s, t, rfl, hs, ht⟩
          exact ⟨a :: s, t, rfl, hs, ht⟩
        · rintro ⟨s, t, hst, hs, ht⟩
          cases s with
          | nil => exact absurd ((nullable_iff p).mpr hs) hn
          | cons b s =>
              rcases List.cons_eq_cons.mp hst with ⟨rfl, rfl⟩
              exact ⟨s, t, rfl, hs, ht⟩
  | alt p q ihp ihq =>
      simp [deriv, matches_alt_iff, ihp, ihq]
  | star p ih =>
      simp only [deriv, matches_cat_iff, ih]
      constructor
      · rintro ⟨s, t, rfl, hs, ht⟩
        exact RE.Matches.starCons (u := a :: s) hs ht
      · intro h
        rcases (matches_star_iff p (a :: w)).mp h with h0 | ⟨u, v, hu0, huv, hu, hv⟩
        · exact absurd h0 (by simp)
        · cases u with
          | nil => exact absurd rfl hu0
          | cons b u =>
              rcases List.cons_eq_cons.mp huv with ⟨rfl, rfl⟩
              exact ⟨u, v, rfl, hu, hv⟩

theorem RE.rmatch_iff (p : RE) (w : List Char) :
    p.rmatch w = true ↔ p.Matches w := by
  induction w generalizing p with
  | nil => exact nullable_iff p
  | cons a as ih => simpa [rmatch, ih] using deriv_matches_iff p a as

theorem RE.rmatchStart_iff (p : RE) (w : List Char) :
    p.rmatchStart w = true ↔ ∃ u v, w = u ++ v ∧ p.Matches u := by
  induction w generalizing p with
  | nil =>
      simp only [rmatchStart, nullable_iff]
      constructor
      · intro h; exact ⟨[], [], rfl, h⟩
      · rintro ⟨u, v, huv, hu⟩
        rcases List.append_eq_nil.mp huv.symm with ⟨rfl, rfl⟩
        exact hu
  | cons a as ih =>
      simp only [rmatchStart, Bool.or_eq_true, nullable_iff, ih, deriv_matches_iff]
      constructor
      · rintro (h0 | ⟨u, v, rfl, hu⟩)
        · exact ⟨[], a :: as, rfl, h0⟩
        · exact ⟨a :: u, v, rfl, hu⟩
      · rintro ⟨u, v, huv, hu⟩
        cases u with
        | nil => exact Or.inl (by simpa [← huv] using hu)
        | cons b u =>
            rcases List.cons_eq_cons.mp huv with ⟨rfl, rfl⟩
            exact Or.inr ⟨u, v, rfl, hu⟩

theorem matches_reStrL (cs w : List Char) :
    (reStrL cs).Matches w ↔ w = cs := by
  induction cs generalizing w with
  | nil => simp [reStrL, RE.matches_eps_iff]
  | cons c cs ih =>
      simp only [reStrL, List.foldr_cons, RE.matches_cat_iff, RE.matches_ch_iff]
      constructor
      · rintro ⟨s, t, rfl, rfl, ht⟩
        rw [(ih t).mp ht]
        rfl
      · rintro rfl
        exact ⟨[c], cs, rfl, rfl, (ih cs).mpr rfl⟩

theorem matches_reChars (cs : List Char) (w : List Char) :
    (reChars cs).Matches w ↔ ∃ c, c ∈ cs ∧ w = [c] := by
  induction cs with
  | nil => simp [reChars, RE.matches_zero_iff]
  | cons c cs ih =>
      simp only [reChars, List.foldr_cons, RE.matches_alt_iff, RE.matches_ch_iff]
      rw [show List.foldr (fun c r => RE.alt (RE.ch c) r) RE.zero cs = reChars cs
            from rfl, ih]
      constructor
      · rintro (rfl | ⟨d, hd, rfl⟩)
        · exact ⟨c, by simp, rfl⟩
        · exact ⟨d, by simp [hd], rfl⟩
      · rintro ⟨d, hd, rfl⟩
        rcases List.mem_cons.mp hd with rfl | hd
        · exact Or.inl rfl
        · exact Or.inr ⟨d, hd, rfl⟩

/-- Star of a single-character class: a string matches iff each of its
characters satisfies the class predicate. -/
theorem matches_star_single (p : RE) (Q : Char → Prop)
    (hp : ∀ u, p.Matches u ↔ ∃ c, Q c ∧ u = [c]) (w : List Char) :
    (RE.star p).Matches w ↔ ∀ c ∈ w, Q c := by
  constructor
  · intro h
    generalize hr : RE.star p = r at h
    induction h with
    | eps => exact absurd hr (by simp)
    | ch c => exact absurd hr (by simp)
    | any c hc => exact absurd hr (by simp)
    | cat hu hv ihu ihv => exact absurd hr (by simp)
    | altL h ih => exact absurd hr (by simp)
    | altR h ih => exact absurd hr (by simp)
    | starNil q => simp
    | starCons hu hv ihu ihv =>
        cases hr
        rcases (hp _).mp hu with ⟨c, hc, rfl⟩
        intro d hd
        rcases List.mem_append.mp hd with hd | hd
        · rcases List.mem_singleton.mp hd with rfl
          exact hc
        · exact ihv rfl d hd
  · intro h
    induction w with
    | nil => exact .starNil p
    | cons c w ih =>
        have hc : p.Matches [c] := (hp [c]).mpr ⟨c, h c (by simp), rfl⟩
        have hw : (RE.star p).Matches w := ih (fun d hd => h d (by simp [hd]))
        exact RE.Matches.starCons (u := [c]) hc hw

theorem matches_star_any (w : List Char) :
    (RE.star RE.any).Matches w ↔ ∀ c ∈ w, c ≠ '\n' := by
  exact matches_star_single RE.any (fun c => c ≠ '\n')
    (fun u => RE.matches_any_iff u) w

/-- Characterization of the collision-table matcher: a name is accepted
exactly when it is `O2mccollision`, or `O2mccollision_` followed by zero or
more digits. -/
theorem collisionTableMatch_iff (tabname : String) :
    collisionTableMatch tabname = true ↔
      tabname.toList = "O2mccollision".toList ∨
      ∃ ds, (∀ c ∈ ds, c ∈ digitChars) ∧
        tabname.toList = "O2mccollision".toList ++ '_' :: ds := by
  rw [collisionTableMatch, RE.rmatch_iff, collisionRE, RE.matches_cat_iff]
  constructor
  · rintro ⟨s, t, hst, hs, ht⟩
    rw [matches_reStrL] at hs
    subst hs
    rcases (RE.matches_alt_iff _ _ _).mp ht with h0 | hcat
    · rw [RE.matches_eps_iff] at h0
      subst h0
      exact Or.inl (by simpa using hst)
    · rcases (RE.matches_cat_iff _ _ _).mp hcat with ⟨u, v, huv, hu, hv⟩
      rw [RE.matches_ch_iff] at hu
      subst hu
      have hv' : ∀ c ∈ v, c ∈ digitChars :=
        (matches_star_single (reChars digitChars) (fun c => c ∈ digitChars)
          (matches_reChars digitChars) v).mp hv
      refine Or.inr ⟨v, hv', ?_⟩
      subst huv
      simpa using hst
  · rintro (h | ⟨ds, hds, h⟩)
    · refine ⟨"O2mccollision".toList, [], by simpa using h,
        (matches_reStrL _ _).mpr rfl, RE.Matches.altL RE.Matches.eps⟩
    · refine ⟨"O2mccollision".toList, '_' :: ds, by simpa using h,
        (matches_reStrL _ _).mpr rfl, RE.Matches.altR ?_⟩
      have hsplit : ('_' :: ds) = ['_'] ++ ds := rfl
      rw [hsplit]
      exact RE.Matches.cat (RE.Matches.ch '_')
        ((matches_star_single (reChars digitChars) (fun c => c ∈ digitChars)
          (matches_reChars digitChars) ds).mpr hds)

/-- Characterization of the kinematics file-name matcher: a name is accepted
exactly when it starts with `sgn`, then any (newline-free) filler, then
`_Kine`, then any single non-newline character, then `root`, then anything. -/
theorem kineMatchName_iff (file_name : String) :
    reMatchName kineRE file_name = true ↔
      ∃ mid c rest, (∀ x ∈ mid, x ≠ '\n') ∧ c ≠ '\n' ∧
        file_name.toList =
          "sgn".toList ++ (mid ++ ("_Kine".toList ++ (c :: ("root".toList ++ rest)))) := by
  rw [reMatchName, RE.rmatchStart_iff]
  constructor
  · rintro ⟨u, v, huv, hu⟩
    rw [kineRE, RE.matches_cat_iff] at hu
    rcases hu with ⟨s1, t1, hu1, hs1, ht1⟩
    rw [matches_reStrL] at hs1
    subst hs1
    rw [RE.matches_cat_iff] at ht1
    rcases ht1 with ⟨m, t2, ht1eq, hm, ht2⟩
    rw [matches_star_any] at hm
    rw [RE.matches_cat_iff] at ht2
    rcases ht2 with ⟨s2, t3, ht2eq, hs2, ht3⟩
    rw [matches_reStrL] at hs2
    subst hs2
    rw [RE.matches_cat_iff] at ht3
    rcases ht3 with ⟨sc, s3, ht3eq, hsc, hs3⟩
    rw [RE.matches_any_iff] at hsc
    rcases hsc with ⟨c, hc, rfl⟩
    rw [matches_reStrL] at hs3
    subst hs3
    refine ⟨m, c, v, hm, hc, ?_⟩
    subst ht3eq
    subst ht2eq
    subst ht1eq
    subst hu1
    simpa using huv
  · rintro ⟨mid, c, rest, hmid, hc, h⟩
    refine ⟨"sgn".toList ++ (mid ++ ("_Kine".toList ++ ([c] ++ "root".toList))),
      rest, by simpa using h, ?_⟩
    rw [kineRE]
    refine RE.Matches.cat ((matches_reStrL _ _).mpr rfl) ?_
    refine RE.Matches.cat ((matches_star_any mid).mpr hmid) ?_
    refine RE.Matches.cat ((matches_reStrL _ _).mpr rfl) ?_
    exact RE.Matches.cat (RE.Matches.any c hc) ((matches_reStrL _ _).mpr rfl)

theorem getKey_self (tables : List TabObj)
    (hn : (tables.map TabObj.name).Nodup) (tab : TabObj) (ht : tab ∈ tables) :
    getKey tables tab.name = some tab := by
  induction tables with
  | nil => cases ht
  | cons t rest ih =>
      rw [List.map_cons] at hn
      rcases List.nodup_cons.mp hn with ⟨hhead, htail⟩
      by_cases hpt : (t.name == tab.name) = true
      · rcases List.mem_cons.mp ht with rfl | hmem
        · simp [getKey, List.find?_cons_of_pos, hpt]
        · exact absurd
            (List.mem_map_of_mem TabObj.name hmem)
            (by rw [show t.name = tab.name from by simpa using hpt] at hhead
                exact hhead)
      · rcases List.mem_cons.mp ht with rfl | hmem
        · exact absurd (by simp) hpt
        · show List.find? _ (t :: rest) = some tab
          rw [List.find?_cons_of_neg _ (by simpa using hpt)]
          exact ih htail hmem

theorem collisionStep_foldl (tables l : List TabObj)
    (hl : ∀ tab ∈ l, getKey tables tab.name = some tab) (acc : Nat × Nat) :
    l.foldl (collisionStep tables) acc =
      (acc.1 + ((l.filter (fun t => collisionTableMatch t.name && t.isTree)).map
          (fun t => t.entries)).sum,
       acc.2 + (l.filter
          (fun t => collisionTableMatch t.name && t.isTree)).length) := by
  induction l generalizing acc with
  | nil => simp
  | cons tab rest ih =>
      have hk := hl tab (List.mem_cons_self tab rest)
      have hrest : ∀ t ∈ rest, getKey tables t.name = some t :=
        fun t htm => hl t (List.mem_cons_of_mem tab htm)
      rw [List.foldl_cons, ih hrest]
      by_cases hm : collisionTableMatch tab.name = true
      · by_cases hit : tab.isTree = true
        · have hstep : collisionStep tables acc tab =
              (acc.1 + tab.entries, acc.2 + 1) := by
            simp [collisionStep, hm, hk, hit]
          have hfil :
              List.filter (fun t => collisionTableMatch t.name && t.isTree)
                  (tab :: rest) =
                tab :: List.filter
                  (fun t => collisionTableMatch t.name && t.isTree) rest := by
            simp [List.filter_cons, hm, hit]
          rw [hstep, hfil]
          simp only [List.map_cons, List.sum_cons, List.length_cons,
            Prod.mk.injEq]
          constructor <;> omega
        · rw [Bool.not_eq_true] at hit
          have hstep : collisionStep tables acc tab = acc := by
            simp [collisionStep, hm, hk, hit]
          have hfil :
              List.filter (fun t => collisionTableMatch t.name && t.isTree)
                  (tab :: rest) =
                List.filter
                  (fun t => collisionTableMatch t.name && t.isTree) rest := by
            simp [List.filter_cons, hm, hit]
          rw [hstep, hfil]
      · rw [Bool.not_eq_true] at hm
        have hstep : collisionStep tables acc tab = acc := by
          simp [collisionStep, hm]
        have hfil :
            List.filter (fun t => collisionTableMatch t.name && t.isTree)
                (tab :: rest) =
              List.filter
                (fun t => collisionTableMatch t.name && t.isTree) rest := by
          simp [List.filter_cons, hm]
        rw [hstep, hfil]

theorem read_AO2D_foldl (keys : List DFKey)
    (h : ∀ k ∈ keys, (k.tables.map TabObj.name).Nodup) (acc : Nat × Nat) :
    keys.foldl
        (fun acc key =>
          if strStartsWith key.name "DF_" then
            key.tables.foldl (collisionStep key.tables) acc
          else acc) acc =
      (acc.1 + ((keys.filter (fun k => strStartsWith k.name "DF_")).map
          groupCollisionSum).sum,
       acc.2 + ((keys.filter (fun k => strStartsWith k.name "DF_")).map
          (fun k => (collisionTables k).length)).sum) := by
  induction keys generalizing acc with
  | nil => simp
  | cons key rest ih =>
      rw [List.foldl_cons, ih (fun k hk => h k (List.mem_cons_of_mem key hk))]
      by_cases hdf : strStartsWith key.name "DF_" = true
      · have hin := collisionStep_foldl key.tables key.tables
          (fun tab htm =>
            getKey_self key.tables (h key (List.mem_cons_self key rest)) tab htm)
          acc
        rw [if_pos hdf, hin, List.filter_cons, if_pos hdf]
        simp only [List.map_cons, List.sum_cons, groupCollisionSum,
          collisionTables, Prod.mk.injEq]
        constructor <;> omega
      · rw [if_neg hdf, List.filter_cons, if_neg hdf]

/-- Function `read_AO2D_eventcount` on a well-formed file computes exactly the
specification's sum and count of collision tables over the `DF_` groups. -/
theorem read_AO2D_eventcount_eq (file : AO2DFile) (h : tableNamesNodup file) :
    read_AO2D_eventcount file = (dfCollisionSum file, dfCollisionCount file) := by
  rw [read_AO2D_eventcount, read_AO2D_foldl file.keys h (0, 0)]
  simp [dfCollisionSum, dfCollisionCount, dfKeys]

mutual
/-- The scanner keeps exactly the files whose base name matches the
pattern, out of all files reachable recursively from the root. -/
theorem walkDir_eq_filter (pattern : RE) (root : String) (t : DirTree) :
    walkDir pattern root t =
      (allFilesDir root t).filter (fun f => reMatchName pattern f.base) := by
  cases t with
  | node files subdirs =>
      rw [walkDir, allFilesDir, List.filter_append,
        walkForest_eq_filter pattern root subdirs]
      congr 1
      induction files with
      | nil => rfl
      | cons fc rest ihf =>
          rw [List.foldr_cons, List.map_cons, List.filter_cons]
          by_cases hmatch : reMatchName pattern fc.1 = true
          · simp only [hmatch, if_true, ihf]
          · simp only [hmatch, if_false, Bool.false_eq_true, ihf]

/-- Forest version of `walkDir_eq_filter`. -/
theorem walkForest_eq_filter (pattern : RE) (root : String) (fr : DirForest) :
    walkForest pattern root fr =
      (allFilesForest root fr).filter (fun f => reMatchName pattern f.base) := by
  cases fr with
  | nil => rfl
  | cons d t rest =>
      rw [walkForest, allFilesForest, List.filter_append,
        walkDir_eq_filter pattern (root ++ "/" ++ d) t,
        walkForest_eq_filter pattern root rest]
end

/-- A fold of the whole `DF_` loop over keys none of which is `DF_`-prefixed
leaves the accumulator unchanged. -/
theorem read_AO2D_foldl_no_df (keys : List DFKey) (acc : Nat × Nat)
    (h : ∀ k ∈ keys, ¬(strStartsWith k.name "DF_" = true)) :
    keys.foldl
        (fun acc key =>
          if strStartsWith key.name "DF_" then
            key.tables.foldl (collisionStep key.tables) acc
          else acc) acc = acc := by
  induction keys generalizing acc with
  | nil => rfl
  | cons key rest ih =>
      rw [List.foldl_cons, if_neg (h key (List.mem_cons_self key rest))]
      exact ih acc (fun k hk => h k (List.mem_cons_of_mem key hk))

/-- Boolean disequality on the counters agrees with propositional
disequality. -/
theorem bne_eq_decide_ne (a b : Nat) : (a != b) = decide (¬a = b) := by
  by_cases h : a = b <;> simp [h]

/-- Concatenating on the right keeps the first character. -/
theorem head_data_append (s t : String) (c : Char)
    (h : s.data.head? = some c) : (s ++ t).data.head? = some c := by
  have hd : (s ++ t).data = s.data ++ t.data := rfl
  rw [hd]
  cases hs : s.data with
  | nil => rw [hs] at h; cases h
  | cons a l => rw [hs] at h; simpa using h

/-- C1: for every (well-formed) aggregated-output file the counter returns
the sum of the entry counts of every collision table inside every
`DF_`-prefixed top-level entry — non-`DF_` entries contribute nothing — and
on a file with two `DF_` groups holding `O2mccollision` tables of 5 and 7
rows it returns 12. -/
theorem aod_count_sums_df_collision_tables :
    (∀ file : AO2DFile, tableNamesNodup file →
      (read_AO2D_eventcount file).1 = dfCollisionSum file) ∧
    (read_AO2D_eventcount exTwoGroups).1 = 12 := by
  constructor
  · intro file h
    rw [read_AO2D_eventcount_eq file h]
  · rfl

/-- Witness for C1 at the concrete two-group file. -/
theorem aod_count_sums_df_collision_tables_witness :
    tableNamesNodup exTwoGroups ∧
      (read_AO2D_eventcount exTwoGroups).1 = dfCollisionSum exTwoGroups :=
  ⟨by decide, aod_count_sums_df_collision_tables.1 exTwoGroups (by decide)⟩

/-- C2 (counterexample): the member name `O2mccollision_` (underscore, zero
digits) is counted as a collision table by the code, whose pattern is
`(_[0-9]*)?`, but does not match the claimed pattern `(_[0-9]+)?`. -/
theorem collision_claim_regex_cex :
    collisionTableMatch "O2mccollision_" = true ∧
    read_AO2D_eventcount cexUnderscoreFile = (4, 1) ∧
    collisionClaimMatch "O2mccollision_" = false := by
  exact ⟨by decide, rfl, by decide⟩

/-- C2 (amended): the matcher recognizes exactly `O2mccollision`, optionally
followed by an underscore and zero or more digits; `O2mccollision_3` is
recognized and `O2mccollisionXYZ` is not. -/
theorem collision_match_characterization :
    (∀ tabname : String, collisionTableMatch tabname = true ↔
        (tabname.toList = "O2mccollision".toList ∨
         ∃ ds, (∀ c ∈ ds, c ∈ digitChars) ∧
           tabname.toList = "O2mccollision".toList ++ '_' :: ds)) ∧
    collisionTableMatch "O2mccollision_3" = true ∧
    collisionTableMatch "O2mccollisionXYZ" = false :=
  ⟨collisionTableMatch_iff, by decide, by decide⟩

/-- C3: for every count the stat writer produces the file
`0_0_0_<count>.stat` with exactly three lines, each starting with `#`, the
third being the literal `#Numer of MC collisions in AOD : ` followed by the
decimal count; writing replaces whatever the path held before. -/
theorem write_stat_file_format (eventcount : Nat)
    (fs : String → Option (List String)) :
    (write_stat_file eventcount).filename =
      "0_0_0_" ++ toString eventcount ++ ".stat" ∧
    (write_stat_file eventcount).lines.length = 3 ∧
    ((write_stat_file eventcount).lines.all
      (fun l => l.data.head? == some '#')) = true ∧
    (write_stat_file eventcount).lines.getD 2 "" =
      "#Numer of MC collisions in AOD : " ++ toString eventcount ∧
    applyStatWrite eventcount fs (write_stat_file eventcount).filename =
      some (write_stat_file eventcount).lines := by
  refine ⟨rfl, rfl, ?_, rfl, ?_⟩
  · rw [List.all_eq_true]
    intro l hl
    have hl' : l = "#This file is autogenerated" ∨
        l = "#It tells MonaLisa about the number of produced MC events" ∨
        l = "#Numer of MC collisions in AOD : " ++ toString eventcount := by
      simpa [write_stat_file] using hl
    rcases hl' with rfl | rfl | rfl
    · decide
    · decide
    · exact beq_iff_eq.mpr
        (head_data_append "#Numer of MC collisions in AOD : "
          (toString eventcount) '#' (by decide))
  · simp [applyStatWrite]

/-- C4: the top level always writes the stat file from the aggregated (AO2D)
count, warns exactly when the two counts differ, and completes without
aborting; with kinematics total 50 and aggregated total 48 the stat file
encodes 48 and only the warning flag is set. -/
theorem main_uses_aod_count_warns_on_mismatch (f : AO2DFile)
    (cwd : Option DirTree) :
    script_main (some f) cwd =
      .ok (decide (¬(read_AO2D_eventcount f).1 =
             read_accumulated_GEANT_eventcount cwd),
           write_stat_file (read_AO2D_eventcount f).1) ∧
    read_accumulated_GEANT_eventcount (some exKineDir50) = 50 ∧
    (read_AO2D_eventcount exAod48).1 = 48 ∧
    script_main (some exAod48) (some exKineDir50) =
      .ok (true, write_stat_file 48) := by
  refine ⟨?_, rfl, rfl, rfl⟩
  rw [script_main]
  rw [bne_eq_decide_ne]

/-- C5 (counterexample): the scanner selects the file `sgn_KineXroot`, whose
base name does not match the specification's pattern `sgn.*_Kine\.root` with
a literal dot. -/
theorem kine_scan_literal_dot_cex :
    find_files_matching_pattern (some cexKineDirX) kineRE =
      [⟨"./sgn_KineXroot", "sgn_KineXroot", none⟩] ∧
    kineClaimMatch "sgn_KineXroot" = false :=
  ⟨rfl, by decide⟩

/-- C5 (amended): the scanner selects, recursively among all files below the
root, exactly those whose base name matches the code's pattern
`sgn.*_Kine.root` anchored at the start — where the unescaped `.` before
`root` matches any single (non-newline) character. -/
theorem kine_scan_selects_iff :
    (∀ (root : String) (t : DirTree),
       walkDir kineRE root t =
         (allFilesDir root t).filter (fun f => reMatchName kineRE f.base)) ∧
    (∀ file_name : String, reMatchName kineRE file_name = true ↔
       ∃ mid c rest, (∀ x ∈ mid, x ≠ '\n') ∧ c ≠ '\n' ∧
         file_name.toList =
           "sgn".toList ++
             (mid ++ ("_Kine".toList ++ (c :: ("root".toList ++ rest))))) :=
  ⟨fun root t => walkDir_eq_filter kineRE root t, kineMatchName_iff⟩

/-- C6: the "no collision table found" diagnostic fires exactly when zero
collision tables were found over all groups, and a file with no `DF_` group
yields `(0, 0)` — a returned total, no error. -/
theorem aod_diagnostic_iff_no_tables :
    (∀ file : AO2DFile, tableNamesNodup file →
       ((read_AO2D_eventcount file).2 = 0 ↔ dfCollisionCount file = 0)) ∧
    (∀ file : AO2DFile,
       file.keys.filter (fun k => strStartsWith k.name "DF_") = [] →
       read_AO2D_eventcount file = (0, 0)) := by
  constructor
  · intro file h
    rw [read_AO2D_eventcount_eq file h]
  · intro file h
    rw [read_AO2D_eventcount]
    refine read_AO2D_foldl_no_df file.keys (0, 0) ?_
    intro k hk
    have := List.filter_eq_nil_iff.mp h k hk
    simpa using this

/-- Witness for C6 at a file whose only top-level key is not `DF_`. -/
theorem aod_diagnostic_iff_no_tables_witness :
    (tableNamesNodup exNoDFFile ∧
      ((read_AO2D_eventcount exNoDFFile).2 = 0 ↔
        dfCollisionCount exNoDFFile = 0)) ∧
    (exNoDFFile.keys.filter (fun k => strStartsWith k.name "DF_") = [] ∧
      read_AO2D_eventcount exNoDFFile = (0, 0)) :=
  ⟨⟨by decide, aod_diagnostic_iff_no_tables.1 exNoDFFile (by decide)⟩,
   ⟨by decide, aod_diagnostic_iff_no_tables.2 exNoDFFile (by decide)⟩⟩

/-- C7: a kinematics file contributes zero when the open fails, when `o2sim`
is absent, or when `o2sim` is not a tree; otherwise it contributes exactly
the tree's entry count. -/
theorem geant_count_soft_failures :
    read_GEANT_eventcount none = 0 ∧
    (∀ tfile : KineTFile, tfile.get "o2sim" = none →
       read_GEANT_eventcount (some tfile) = 0) ∧
    (∀ (tfile : KineTFile) (simtree : SimObj),
       tfile.get "o2sim" = some simtree →
       read_GEANT_eventcount (some tfile) =
         if simtree.isTree then simtree.entries else 0) := by
  refine ⟨rfl, ?_, ?_⟩
  · intro tfile h
    simp [read_GEANT_eventcount, h]
  · intro tfile simtree h
    simp [read_GEANT_eventcount, h]

/-- Witness for C7 on the three concrete kinematics files. -/
theorem geant_count_soft_failures_witness :
    read_GEANT_eventcount (some exKineMissing) = 0 ∧
    read_GEANT_eventcount (some exKineNoTree) = 0 ∧
    read_GEANT_eventcount (some exKineFile) = 21 := by
  refine ⟨?_, ?_, ?_⟩
  · exact geant_count_soft_failures.2.1 exKineMissing (by decide)
  · simpa using geant_count_soft_failures.2.2 exKineNoTree ⟨false, 21⟩ (by decide)
  · simpa using geant_count_soft_failures.2.2 exKineFile ⟨true, 21⟩ (by decide)

/-- C8: a missing or unreadable directory scans to the empty list and counts
zero, and any directory none of whose files matches the kinematics pattern
also counts zero. -/
theorem empty_scan_zero_count :
    find_files_matching_pattern none kineRE = [] ∧
    read_accumulated_GEANT_eventcount none = 0 ∧
    (∀ t : DirTree,
       (allFilesDir "." t).all (fun f => !reMatchName kineRE f.base) = true →
       read_accumulated_GEANT_eventcount (some t) = 0) := by
  refine ⟨rfl, rfl, ?_⟩
  intro t h
  rw [read_accumulated_GEANT_eventcount]
  have hfind : find_files_matching_pattern (some t) kineRE = [] := by
    show walkDir kineRE "." t = []
    rw [walkDir_eq_filter, List.filter_eq_nil_iff]
    intro f hf
    have := List.all_eq_true.mp h f hf
    simpa using this
  rw [hfind]
  rfl

/-- Witness for C8 at a directory holding only `AO2D.root`. -/
theorem empty_scan_zero_count_witness :
    ((allFilesDir "." exNoKineDir).all
      (fun f => !reMatchName kineRE f.base) = true) ∧
    read_accumulated_GEANT_eventcount (some exNoKineDir) = 0 :=
  ⟨by decide, empty_scan_zero_count.2.2 exNoKineDir (by decide)⟩

/-- C9: with no usable AO2D file the run is an unhandled crash —
`tfile.GetListOfKeys()` on `None` — and no stat file is produced. -/
theorem missing_aod_crashes (cwd : Option DirTree) :
    script_main none cwd = .error () := rfl

/-- C10: a `DF_` group holding both `O2mccollision` and `O2mccollision_1`
contributes the sum of both tables' entry counts, and the tables-found
counter is bumped once per matching member. -/
theorem group_with_two_collision_tables (a b : Nat) :
    read_AO2D_eventcount (exTwinTables a b) = (a + b, 2) := by
  have hn : tableNamesNodup (exTwinTables a b) := by
    intro key hk
    have hk' : key = ⟨"DF_0",
        [⟨"O2mccollision", true, a⟩, ⟨"O2mccollision_1", true, b⟩]⟩ := by
      simpa [exTwinTables] using hk
    subst hk'
    simp only [List.map_cons, List.map_nil]
    decide
  rw [read_AO2D_eventcount_eq (exTwinTables a b) hn]
  have hm1 : collisionTableMatch "O2mccollision" = true := by decide
  have hm2 : collisionTableMatch "O2mccollision_1" = true := by decide
  have hdf : strStartsWith "DF_0" "DF_" = true := by decide
  simp [exTwinTables, dfCollisionSum, dfCollisionCount, dfKeys,
    groupCollisionSum, collisionTables, hm1, hm2, hdf]
